import Mathlib

/-!
Verification of the btasks task-management system against its design
specification.

The repository ships an Electron UI shell and browser-side request helpers
(src/main.js) together with the README documenting the server's HTTP+JSON
API.  The Rust server core itself (store manager, project registry, task
graph, identifier allocator, persistence codec, request router) is not part
of the checked-in sources, so those components are modelled here from the
specification's words; the client helpers are embedded directly from
src/main.js.
-/

namespace BTasks

/-- Modelled from the spec: the fixed enumeration of task states
(`Todo`, `InProgress`, `Blocked`, `Done`, §4.2). -/
inductive TaskState where
  | Todo
  | InProgress
  | Blocked
  | Done
deriving DecidableEq

/-- Modelled from the spec: a log entry payload is a free-text comment or a
record of a state transition (§3, LogEntry). -/
inductive EntryType where
  | Comment (text : String)
  | StateChangedTo (s : TaskState)
deriving DecidableEq

/-- Modelled from the spec: a log entry has a server-assigned timestamp
(seconds since epoch) and a payload (§3). -/
structure LogEntry where
  timestamp : Nat
  entry_type : EntryType
deriving DecidableEq

/-- Modelled from the spec: a task has an identifier, title, description,
state, a set of dependency references (kept duplicate-free, set semantics)
and an append-only ordered log (§3). -/
structure Task where
  id : Nat
  title : String
  description : String
  state : TaskState
  dependencies : List Nat
  log : List LogEntry
deriving DecidableEq

/-- Modelled from the spec: a project has an identifier, name, description
and an ordered-by-creation collection of tasks; the per-project task
identifier allocator state is persisted alongside (§3, §4.1). -/
structure Project where
  id : Nat
  name : String
  description : String
  tasks : List Task
  next_task_id : Nat
deriving DecidableEq

/-- Modelled from the spec: the project registry owns the set of projects,
ordered by creation; the global project identifier allocator state is
persisted alongside (§2, §4.1, §4.5). -/
structure Registry where
  projects : List Project
  next_project_id : Nat
deriving DecidableEq

/-- Modelled from the spec: the registry a fresh process starts from when no
prior persisted state exists (§4.6). -/
def Registry.empty : Registry :=
  { projects := [], next_project_id := 0 }

/-- Modelled from the spec: the fixed initial state of a newly created task.
The documented contract leaves the default open (§9); the spec suggests
`Todo`, which this model adopts. -/
def Task.initState : TaskState := TaskState.Todo

/-- Modelled from the spec: the dependency action of `/task/dependency`
(`Add` or `Remove`, §4.3). -/
inductive DepAction where
  | Add
  | Remove
deriving DecidableEq

/-- Modelled from the spec: `Add` inserts with set semantics (idempotent);
duplicate additions leave the set unchanged (§4.3). -/
def Task.addDependency (t : Task) (d : Nat) : Task :=
  if d ∈ t.dependencies then t
  else { t with dependencies := t.dependencies ++ [d] }

/-- Modelled from the spec: `Remove` deletes the identifier from the
dependency set; removing a non-member is a no-op (§4.3). -/
def Task.removeDependency (t : Task) (d : Nat) : Task :=
  { t with dependencies := t.dependencies.filter (fun x => x ≠ d) }

/-- Modelled from the spec: dispatch of the dependency operation (§4.3). -/
def Task.depApply (t : Task) (a : DepAction) (d : Nat) : Task :=
  match a with
  | .Add => t.addDependency d
  | .Remove => t.removeDependency d

/-- Modelled from the spec: the state transition appends a `StateChangedTo`
log entry with the current timestamp and updates the current state; no
precondition on the current state (§4.2). -/
def Task.changeState (t : Task) (ts : Nat) (s : TaskState) : Task :=
  { t with state := s,
           log := t.log ++ [{ timestamp := ts, entry_type := EntryType.StateChangedTo s }] }

/-- Modelled from the spec: posting a comment appends a `Comment` log entry
with the current server timestamp (§4.4). -/
def Task.addComment (t : Task) (ts : Nat) (text : String) : Task :=
  { t with log := t.log ++ [{ timestamp := ts, entry_type := EntryType.Comment text }] }

/-- Modelled from the spec: task creation allocates the next per-project
task identifier; a new task starts in the fixed initial state with an empty
log and no dependencies (§3, §4.1, §9). -/
def Project.createTask (p : Project) (name description : String) : Project × Nat :=
  let tid := p.next_task_id
  ({ p with
      tasks := p.tasks ++ [{ id := tid, title := name, description := description,
                             state := Task.initState, dependencies := [], log := [] }],
      next_task_id := tid + 1 }, tid)

/-- Modelled from the spec: project creation allocates the next global
project identifier; a new project starts with no tasks (§3, §4.1, §4.5). -/
def Registry.createProject (r : Registry) (name description : String) : Registry × Nat :=
  let pid := r.next_project_id
  ({ projects := r.projects ++ [{ id := pid, name := name, description := description,
                                  tasks := [], next_task_id := 0 }],
     next_project_id := pid + 1 }, pid)

/-- Modelled from the spec: apply a function to the project with the given
identifier; operations on an unknown project identifier degrade to a no-op
(§4.5, §7, §9). -/
def Registry.updateProject (r : Registry) (pid : Nat) (f : Project → Project) : Registry :=
  { r with projects := r.projects.map (fun p => if p.id = pid then f p else p) }

/-- Modelled from the spec: apply a function to the task with the given
identifier inside a project; operations on an unknown task identifier
degrade to a no-op (§7, §9). -/
def Project.updateTask (p : Project) (tid : Nat) (f : Task → Task) : Project :=
  { p with tasks := p.tasks.map (fun t => if t.id = tid then f t else t) }

/-- Modelled from the spec: apply a function to one task addressed by
project and task identifier. -/
def Registry.updateTask (r : Registry) (pid tid : Nat) (f : Task → Task) : Registry :=
  r.updateProject pid (fun p => p.updateTask tid f)

/-- Modelled from the spec: the mutating operations of the documented API
(§6); read operations do not change the registry and are modelled
separately by the router. -/
inductive Op where
  | createProject (name description : String)
  | renameProject (pid : Nat) (name : String)
  | describeProject (pid : Nat) (description : String)
  | createTask (pid : Nat) (name description : String)
  | setTaskTitle (pid tid : Nat) (title : String)
  | setTaskDescription (pid tid : Nat) (description : String)
  | dependency (pid tid : Nat) (a : DepAction) (d : Nat)
  | changeState (pid tid : Nat) (s : TaskState)
  | comment (pid tid : Nat) (text : String)
deriving DecidableEq

/-- Modelled from the spec: execution of one mutating operation against the
registry at server time `ts`; the store manager serializes mutations, so a
run of the system is a sequence of such steps (§2, §5). -/
def Registry.apply (r : Registry) (ts : Nat) (op : Op) : Registry :=
  match op with
  | .createProject name desc => (r.createProject name desc).1
  | .renameProject pid name => r.updateProject pid (fun p => { p with name := name })
  | .describeProject pid desc => r.updateProject pid (fun p => { p with description := desc })
  | .createTask pid name desc => r.updateProject pid (fun p => (p.createTask name desc).1)
  | .setTaskTitle pid tid title => r.updateTask pid tid (fun t => { t with title := title })
  | .setTaskDescription pid tid desc =>
      r.updateTask pid tid (fun t => { t with description := desc })
  | .dependency pid tid a d => r.updateTask pid tid (fun t => t.depApply a d)
  | .changeState pid tid s => r.updateTask pid tid (fun t => t.changeState ts s)
  | .comment pid tid text => r.updateTask pid tid (fun t => t.addComment ts text)

/-- Modelled from the spec: a run of timestamped mutating operations. -/
def Registry.applyAll (ops : List (Nat × Op)) (r : Registry) : Registry :=
  ops.foldl (fun acc step => acc.apply step.1 step.2) r

/-- Modelled from the spec: the registry reached from a fresh start by a
sequence of timestamped mutating operations. -/
def Registry.reach (ops : List (Nat × Op)) : Registry :=
  Registry.applyAll ops Registry.empty

/-- The new-state payload of the most recent `StateChangedTo` entry of a
log, if any (§3 invariant, stated from the spec for comparison with the
model). -/
def lastStateChange (log : List LogEntry) : Option TaskState :=
  log.foldl (fun acc e =>
    match e.entry_type with
    | .StateChangedTo s => some s
    | .Comment _ => acc) none

/-- The state a task's log derives: the most recent `StateChangedTo`
payload, else the fixed initial state (§3 invariant). -/
def derivedState (log : List LogEntry) : TaskState :=
  (lastStateChange log).getD Task.initState

lemma lastStateChange_append (l₁ l₂ : List LogEntry) :
    lastStateChange (l₁ ++ l₂) =
      (l₂.foldl (fun acc e =>
        match e.entry_type with
        | .StateChangedTo s => some s
        | .Comment _ => acc) (lastStateChange l₁)) := by
  simp [lastStateChange, List.foldl_append]

lemma derivedState_changeState (l : List LogEntry) (ts : Nat) (s : TaskState) :
    derivedState (l ++ [{ timestamp := ts, entry_type := EntryType.StateChangedTo s }]) = s := by
  simp [derivedState, lastStateChange_append]

lemma derivedState_comment (l : List LogEntry) (ts : Nat) (text : String) :
    derivedState (l ++ [{ timestamp := ts, entry_type := EntryType.Comment text }]) =
      derivedState l := by
  simp [derivedState, lastStateChange_append]

/-- The per-task form of the state-derivation invariant. -/
def Task.StateOk (t : Task) : Prop := t.state = derivedState t.log

/-- The registry-wide state-derivation invariant. -/
def Registry.StatesOk (r : Registry) : Prop :=
  ∀ p ∈ r.projects, ∀ t ∈ p.tasks, t.StateOk

lemma forall_tasks_updateProject {Q : Task → Prop} (r : Registry) (pid : Nat)
    (f : Project → Project)
    (hf : ∀ p, (∀ t ∈ p.tasks, Q t) → ∀ t ∈ (f p).tasks, Q t)
    (h : ∀ p ∈ r.projects, ∀ t ∈ p.tasks, Q t) :
    ∀ p ∈ (r.updateProject pid f).projects, ∀ t ∈ p.tasks, Q t := by
  intro p hp
  simp only [Registry.updateProject, List.mem_map] at hp
  obtain ⟨q, hq, rfl⟩ := hp
  by_cases hid : q.id = pid
  · simpa [hid] using hf q (h q hq)
  · simpa [hid] using h q hq

lemma forall_tasks_updateTask {Q : Task → Prop} (p : Project) (tid : Nat)
    (f : Task → Task) (hf : ∀ t, Q t → Q (f t))
    (h : ∀ t ∈ p.tasks, Q t) :
    ∀ t ∈ (p.updateTask tid f).tasks, Q t := by
  intro t ht
  simp only [Project.updateTask, List.mem_map] at ht
  obtain ⟨u, hu, rfl⟩ := ht
  by_cases hid : u.id = tid
  · simpa [hid] using hf u (h u hu)
  · simpa [hid] using h u hu

lemma statesOk_apply (r : Registry) (ts : Nat) (op : Op)
    (h : r.StatesOk) : (r.apply ts op).StatesOk := by
  cases op with
  | createProject name desc =>
      intro p hp t ht
      simp only [Registry.apply, Registry.createProject, List.mem_append,
        List.mem_singleton] at hp
      rcases hp with hp | hp
      · exact h p hp t ht
      · subst hp; simp at ht
  | renameProject pid name =>
      exact forall_tasks_updateProject r pid _ (fun p hp => by simpa using hp) h
  | describeProject pid desc =>
      exact forall_tasks_updateProject r pid _ (fun p hp => by simpa using hp) h
  | createTask pid name desc =>
      refine forall_tasks_updateProject r pid _ ?_ h
      intro p hp t ht
      simp only [Project.createTask, List.mem_append, List.mem_singleton] at ht
      rcases ht with ht | ht
      · exact hp t ht
      · subst ht
        simp [Task.StateOk, derivedState, lastStateChange]
  | setTaskTitle pid tid title =>
      refine forall_tasks_updateProject r pid _ ?_ h
      intro p hp
      exact forall_tasks_updateTask p tid _ (fun t hQ => by
        simpa [Task.StateOk] using hQ) hp
  | setTaskDescription pid tid desc =>
      refine forall_tasks_updateProject r pid _ ?_ h
      intro p hp
      exact forall_tasks_updateTask p tid _ (fun t hQ => by
        simpa [Task.StateOk] using hQ) hp
  | dependency pid tid a d =>
      refine forall_tasks_updateProject r pid _ ?_ h
      intro p hp
      refine forall_tasks_updateTask p tid _ ?_ hp
      intro t hQ
      cases a with
      | Add =>
          simp only [Task.depApply, Task.addDependency]
          split
          · exact hQ
          · simpa [Task.StateOk] using hQ
      | Remove =>
          simpa [Task.depApply, Task.removeDependency, Task.StateOk] using hQ
  | changeState pid tid s =>
      refine forall_tasks_updateProject r pid _ ?_ h
      intro p hp
      refine forall_tasks_updateTask p tid _ ?_ hp
      intro t _
      simp [Task.StateOk, Task.changeState, derivedState_changeState]
  | comment pid tid text =>
      refine forall_tasks_updateProject r pid _ ?_ h
      intro p hp
      refine forall_tasks_updateTask p tid _ ?_ hp
      intro t hQ
      simpa [Task.StateOk, Task.addComment, derivedState_comment] using hQ

lemma statesOk_applyAll (ops : List (Nat × Op)) (r : Registry)
    (h : r.StatesOk) : (Registry.applyAll ops r).StatesOk := by
  induction ops generalizing r with
  | nil => simpa [Registry.applyAll] using h
  | cons step rest ih =>
      simpa [Registry.applyAll] using ih (r.apply step.1 step.2) (statesOk_apply _ _ _ h)

/-- C1: for every task and every sequence of operations, the task's current
state equals the new-state payload of the most recent `StateChangedTo`
entry in its activity log; if the log contains no `StateChangedTo` entry,
the state equals the fixed initial state. -/
theorem state_matches_latest_log_entry (ops : List (Nat × Op)) (p : Project) (t : Task)
    (hp : p ∈ (Registry.reach ops).projects) (ht : t ∈ p.tasks) :
    t.state = derivedState t.log :=
  statesOk_applyAll ops Registry.empty (by intro p hp; simp [Registry.empty] at hp) p hp t ht

/-- Modelled from the spec: fetch one project by identifier (§4.5). -/
def Registry.findProject (r : Registry) (pid : Nat) : Option Project :=
  r.projects.find? (fun p => p.id == pid)

/-- Modelled from the spec: fetch one task of a project by identifier (§6,
`/task`). -/
def Project.findTask (p : Project) (tid : Nat) : Option Task :=
  p.tasks.find? (fun t => t.id == tid)

/-- Modelled from the spec: fetch one task by project and task identifier. -/
def Registry.findTask (r : Registry) (pid tid : Nat) : Option Task :=
  (r.findProject pid).bind (fun p => p.findTask tid)

lemma findProject_updateProject (r : Registry) (pid qid : Nat) (f : Project → Project)
    (hf : ∀ p, (f p).id = p.id) :
    (r.updateProject pid f).findProject qid =
      (r.findProject qid).map (fun p => if p.id = pid then f p else p) := by
  simp only [Registry.updateProject, Registry.findProject, List.find?_map]
  have hpred : ((fun p => p.id == qid) ∘ fun p => if p.id = pid then f p else p)
      = (fun p : Project => p.id == qid) := by
    funext p
    by_cases h : p.id = pid <;> simp [Function.comp, h, hf]
  rw [hpred]

lemma findTask_updateTask_proj (p : Project) (tid qid : Nat) (f : Task → Task)
    (hf : ∀ u, (f u).id = u.id) :
    (p.updateTask tid f).findTask qid =
      (p.findTask qid).map (fun u => if u.id = tid then f u else u) := by
  simp only [Project.updateTask, Project.findTask, List.find?_map]
  have hpred : ((fun t => t.id == qid) ∘ fun t => if t.id = tid then f t else t)
      = (fun t : Task => t.id == qid) := by
    funext u
    by_cases h : u.id = tid <;> simp [Function.comp, h, hf]
  rw [hpred]

lemma findTask_updateTask_query (r : Registry) (pid2 tid2 pid tid : Nat) (f : Task → Task)
    (hf : ∀ u, (f u).id = u.id) :
    (r.updateTask pid2 tid2 f).findTask pid tid =
      if pid = pid2 ∧ tid = tid2 then (r.findTask pid tid).map f
      else r.findTask pid tid := by
  unfold Registry.updateTask Registry.findTask
  rw [findProject_updateProject r pid2 pid (fun p => p.updateTask tid2 f) (fun p => rfl)]
  cases hfp : r.findProject pid with
  | none => simp
  | some p0 =>
      have hp0 : p0.id = pid := by
        have := List.find?_some hfp
        simpa using this
      simp only [Option.map_some', Option.some_bind]
      by_cases hpp : pid = pid2
      · rw [if_pos (by rw [hp0, hpp])]
        rw [findTask_updateTask_proj p0 tid2 tid f hf]
        cases hft : p0.findTask tid with
        | none => simp
        | some u0 =>
            have hu0 : u0.id = tid := by
              have := List.find?_some hft
              simpa [Project.findTask] using this
            by_cases htt : tid = tid2
            · simp [hpp, htt, hu0]
            · simp [hpp, htt, hu0]
      · rw [if_neg (by rw [hp0]; exact hpp)]
        simp [hpp]

lemma findTask_updateProject_tasks_eq (r : Registry) (pid2 pid tid : Nat)
    (f : Project → Project) (hid : ∀ p, (f p).id = p.id)
    (htasks : ∀ p, (f p).tasks = p.tasks) :
    (r.updateProject pid2 f).findTask pid tid = r.findTask pid tid := by
  unfold Registry.findTask
  rw [findProject_updateProject r pid2 pid f hid]
  cases hfp : r.findProject pid with
  | none => simp
  | some p0 =>
      by_cases h : p0.id = pid2 <;> simp [h, Project.findTask, htasks]

lemma findTask_createTask_query (r : Registry) (pid2 pid tid : Nat) (n d : String) (t : Task)
    (h : r.findTask pid tid = some t) :
    (r.updateProject pid2 (fun p => (p.createTask n d).1)).findTask pid tid = some t := by
  unfold Registry.findTask at h ⊢
  rw [findProject_updateProject r pid2 pid (fun p => (p.createTask n d).1)
    (fun p => by simp [Project.createTask])]
  cases hfp : r.findProject pid with
  | none => rw [hfp] at h; simp at h
  | some p0 =>
      rw [hfp] at h
      simp only [Option.some_bind] at h
      by_cases hid : p0.id = pid2
      · simp only [Option.map_some', hid, if_pos, Option.some_bind]
        simp only [Project.createTask, Project.findTask] at h ⊢
        rw [List.find?_append, h]
        rfl
      · simp [hid, h]

lemma findProject_createProject (r : Registry) (qid : Nat) (n d : String) (p : Project)
    (h : r.findProject qid = some p) :
    (r.createProject n d).1.findProject qid = some p := by
  simp only [Registry.createProject, Registry.findProject] at h ⊢
  rw [List.find?_append, h]
  rfl

/-- Every mutating operation only ever appends to a task's activity log. -/
lemma findTask_apply_log_extends (r : Registry) (ts : Nat) (op : Op) (pid tid : Nat) (t : Task)
    (h : r.findTask pid tid = some t) :
    ∃ t' rest, (r.apply ts op).findTask pid tid = some t' ∧ t'.log = t.log ++ rest := by
  cases op with
  | createProject name desc =>
      refine ⟨t, [], ?_, by simp⟩
      unfold Registry.findTask at h ⊢
      cases hfp : r.findProject pid with
      | none => rw [hfp] at h; simp at h
      | some p0 =>
          rw [hfp] at h
          simp only [Registry.apply]
          rw [findProject_createProject r pid name desc p0 hfp]
          exact h
  | renameProject pid2 name =>
      refine ⟨t, [], ?_, by simp⟩
      simp only [Registry.apply]
      rw [findTask_updateProject_tasks_eq r pid2 pid tid (fun p => { p with name := name })
        (fun p => rfl) (fun p => rfl)]
      exact h
  | describeProject pid2 desc =>
      refine ⟨t, [], ?_, by simp⟩
      simp only [Registry.apply]
      rw [findTask_updateProject_tasks_eq r pid2 pid tid (fun p => { p with description := desc })
        (fun p => rfl) (fun p => rfl)]
      exact h
  | createTask pid2 name desc =>
      refine ⟨t, [], ?_, by simp⟩
      simp only [Registry.apply]
      exact findTask_createTask_query r pid2 pid tid name desc t h
  | setTaskTitle pid2 tid2 title =>
      simp only [Registry.apply]
      rw [findTask_updateTask_query r pid2 tid2 pid tid (fun u => { u with title := title })
        (fun u => rfl)]
      split
      · exact ⟨_, [], by rw [h]; rfl, by simp⟩
      · exact ⟨t, [], h, by simp⟩
  | setTaskDescription pid2 tid2 desc =>
      simp only [Registry.apply]
      rw [findTask_updateTask_query r pid2 tid2 pid tid (fun u => { u with description := desc })
        (fun u => rfl)]
      split
      · exact ⟨_, [], by rw [h]; rfl, by simp⟩
      · exact ⟨t, [], h, by simp⟩
  | dependency pid2 tid2 a d =>
      have hid : ∀ u : Task, (u.depApply a d).id = u.id := by
        intro u
        cases a with
        | Add =>
            simp only [Task.depApply, Task.addDependency]
            split <;> rfl
        | Remove => rfl
      simp only [Registry.apply]
      rw [findTask_updateTask_query r pid2 tid2 pid tid (fun u => u.depApply a d) hid]
      split
      · refine ⟨_, [], by rw [h]; rfl, ?_⟩
        cases a with
        | Add =>
            simp only [Task.depApply, Task.addDependency]
            split <;> simp
        | Remove => simp [Task.depApply, Task.removeDependency]
      · exact ⟨t, [], h, by simp⟩
  | changeState pid2 tid2 s =>
      simp only [Registry.apply]
      rw [findTask_updateTask_query r pid2 tid2 pid tid (fun u => u.changeState ts s)
        (fun u => rfl)]
      split
      · exact ⟨_, [{ timestamp := ts, entry_type := EntryType.StateChangedTo s }],
          by rw [h]; rfl, by simp [Task.changeState]⟩
      · exact ⟨t, [], h, by simp⟩
  | comment pid2 tid2 text =>
      simp only [Registry.apply]
      rw [findTask_updateTask_query r pid2 tid2 pid tid (fun u => u.addComment ts text)
        (fun u => rfl)]
      split
      · exact ⟨_, [{ timestamp := ts, entry_type := EntryType.Comment text }],
          by rw [h]; rfl, by simp [Task.addComment]⟩
      · exact ⟨t, [], h, by simp⟩

/-- A concrete task used to instantiate the universally quantified theorems. -/
def sampleTask : Task :=
  { id := 0, title := "T", description := "x", state := TaskState.Todo,
    dependencies := [], log := [] }

/-- A concrete project holding `sampleTask`. -/
def sampleProject : Project :=
  { id := 0, name := "P", description := "d", tasks := [sampleTask], next_task_id := 1 }

/-- A concrete registry holding `sampleProject`. -/
def sampleRegistry : Registry :=
  { projects := [sampleProject], next_project_id := 1 }

/-- A concrete run: create a project, create a task in it, set its state. -/
def sampleOps : List (Nat × Op) :=
  [(1, Op.createProject "P" "d"), (2, Op.createTask 0 "T" "x"),
   (3, Op.changeState 0 0 TaskState.Blocked)]

/-- The task reached by `sampleOps`. -/
def sampleReachedTask : Task :=
  { id := 0, title := "T", description := "x", state := TaskState.Blocked,
    dependencies := [],
    log := [{ timestamp := 3, entry_type := EntryType.StateChangedTo TaskState.Blocked }] }

/-- The project reached by `sampleOps`. -/
def sampleReachedProject : Project :=
  { id := 0, name := "P", description := "d", tasks := [sampleReachedTask], next_task_id := 1 }

/-- C6: for every existing task and every requested new state (with no
precondition on the current state, including self-transitions and
regardless of dependency completion), the state-transition operation
appends exactly one `StateChangedTo` log entry carrying the current server
timestamp and sets the task's current state to the requested value, as one
step of the serialized model. -/
theorem change_state_appends_and_sets (r : Registry) (ts pid tid : Nat) (s : TaskState)
    (t : Task) (h : r.findTask pid tid = some t) :
    (r.apply ts (Op.changeState pid tid s)).findTask pid tid =
      some { t with state := s,
                    log := t.log ++
                      [{ timestamp := ts, entry_type := EntryType.StateChangedTo s }] } := by
  simp only [Registry.apply]
  rw [findTask_updateTask_query r pid tid pid tid (fun u => u.changeState ts s) (fun u => rfl)]
  simp [h, Task.changeState]

/-- Witness for C6 at a concrete registry, task and state. -/
theorem change_state_appends_and_sets_witness :
    (sampleRegistry.apply 7 (Op.changeState 0 0 TaskState.Done)).findTask 0 0 =
      some { sampleTask with
             state := TaskState.Done,
             log := sampleTask.log ++
               [{ timestamp := 7, entry_type := EntryType.StateChangedTo TaskState.Done }] } :=
  change_state_appends_and_sets sampleRegistry 7 0 0 TaskState.Done sampleTask (by decide)

/-- The per-registry log invariant used for C4: every task's log timestamps
are adjacent-wise non-decreasing and bounded by `n`. -/
def Registry.LogsOk (r : Registry) (n : Nat) : Prop :=
  ∀ p ∈ r.projects, ∀ t ∈ p.tasks,
    List.Chain' (fun a b : LogEntry => a.timestamp ≤ b.timestamp) t.log ∧
    ∀ e ∈ t.log, e.timestamp ≤ n

lemma logEntry_chain_append (l : List LogEntry) (e : LogEntry) (n : Nat)
    (hc : List.Chain' (fun a b : LogEntry => a.timestamp ≤ b.timestamp) l)
    (hb : ∀ x ∈ l, x.timestamp ≤ n) (hn : n ≤ e.timestamp) :
    List.Chain' (fun a b : LogEntry => a.timestamp ≤ b.timestamp) (l ++ [e]) := by
  rw [List.chain'_append]
  refine ⟨hc, List.chain'_singleton e, ?_⟩
  intro x hx y hy
  simp only [List.head?_cons, Option.mem_def, Option.some.injEq] at hy
  subst hy
  exact le_trans (hb x (List.mem_of_mem_getLast? hx)) hn

lemma logsOk_apply (r : Registry) (n ts : Nat) (op : Op) (h : r.LogsOk n) (hn : n ≤ ts) :
    (r.apply ts op).LogsOk ts := by
  have h' : r.LogsOk ts := by
    intro p hp t ht
    exact ⟨(h p hp t ht).1, fun e he => le_trans ((h p hp t ht).2 e he) hn⟩
  cases op with
  | createProject name desc =>
      intro p hp t ht
      simp only [Registry.apply, Registry.createProject, List.mem_append,
        List.mem_singleton] at hp
      rcases hp with hp | hp
      · exact h' p hp t ht
      · subst hp; simp at ht
  | renameProject pid name =>
      exact forall_tasks_updateProject r pid _ (fun p hp => by simpa using hp) h'
  | describeProject pid desc =>
      exact forall_tasks_updateProject r pid _ (fun p hp => by simpa using hp) h'
  | createTask pid name desc =>
      refine forall_tasks_updateProject r pid _ ?_ h'
      intro p hp t ht
      simp only [Project.createTask, List.mem_append, List.mem_singleton] at ht
      rcases ht with ht | ht
      · exact hp t ht
      · subst ht
        exact ⟨by simp, by simp⟩
  | setTaskTitle pid tid title =>
      refine forall_tasks_updateProject r pid _ ?_ h'
      intro p hp
      exact forall_tasks_updateTask p tid _ (fun t hQ => by simpa using hQ) hp
  | setTaskDescription pid tid desc =>
      refine forall_tasks_updateProject r pid _ ?_ h'
      intro p hp
      exact forall_tasks_updateTask p tid _ (fun t hQ => by simpa using hQ) hp
  | dependency pid tid a d =>
      refine forall_tasks_updateProject r pid _ ?_ h'
      intro p hp
      refine forall_tasks_updateTask p tid _ ?_ hp
      intro t hQ
      cases a with
      | Add =>
          simp only [Task.depApply, Task.addDependency]
          split
          · exact hQ
          · simpa using hQ
      | Remove => simpa [Task.depApply, Task.removeDependency] using hQ
  | changeState pid tid s =>
      refine forall_tasks_updateProject r pid _ ?_ h'
      intro p hp
      refine forall_tasks_updateTask p tid _ ?_ hp
      intro t hQ
      simp only [Task.changeState]
      constructor
      · exact logEntry_chain_append t.log _ ts hQ.1 hQ.2 (le_refl ts)
      · intro e he
        simp only [List.mem_append, List.mem_singleton] at he
        rcases he with he | he
        · exact hQ.2 e he
        · subst he; exact le_refl ts
  | comment pid tid text =>
      refine forall_tasks_updateProject r pid _ ?_ h'
      intro p hp
      refine forall_tasks_updateTask p tid _ ?_ hp
      intro t hQ
      simp only [Task.addComment]
      constructor
      · exact logEntry_chain_append t.log _ ts hQ.1 hQ.2 (le_refl ts)
      · intro e he
        simp only [List.mem_append, List.mem_singleton] at he
        rcases he with he | he
        · exact hQ.2 e he
        · subst he; exact le_refl ts

lemma logsOk_applyAll (ops : List (Nat × Op)) (r : Registry) (n : Nat)
    (hchain : List.Chain (· ≤ ·) n (ops.map Prod.fst)) (h : r.LogsOk n) :
    ∃ m, (Registry.applyAll ops r).LogsOk m := by
  induction ops generalizing r n with
  | nil => exact ⟨n, by simpa [Registry.applyAll] using h⟩
  | cons step rest ih =>
      simp only [List.map_cons] at hchain
      cases hchain with
      | cons hle hrest =>
          have hstep := logsOk_apply r n step.1 step.2 h hle
          simpa [Registry.applyAll] using ih (r.apply step.1 step.2) step.1 hrest hstep

/-- C4: for every task, every operation leaves the activity log a prefix of
its successor (entries are only appended, never edited or removed, so the
log length never decreases); and when the server clock supplies
non-decreasing timestamps, the timestamps of the log entries are
non-decreasing in append order. -/
theorem activity_log_append_only :
    (∀ (r : Registry) (ts : Nat) (op : Op) (pid tid : Nat) (t : Task),
      r.findTask pid tid = some t →
        ∃ t' rest, (r.apply ts op).findTask pid tid = some t' ∧ t'.log = t.log ++ rest) ∧
    (∀ ops : List (Nat × Op), List.Chain' (· ≤ ·) (ops.map Prod.fst) →
      ∀ p ∈ (Registry.reach ops).projects, ∀ t ∈ p.tasks,
        List.Chain' (fun a b : LogEntry => a.timestamp ≤ b.timestamp) t.log) := by
  constructor
  · exact findTask_apply_log_extends
  · intro ops hops p hp t ht
    have h0 : Registry.empty.LogsOk 0 := by
      intro p hp
      simp [Registry.empty] at hp
    have hchain : List.Chain (· ≤ ·) 0 (ops.map Prod.fst) := by
      cases hl : ops.map Prod.fst with
      | nil => exact List.Chain.nil
      | cons a l =>
          rw [hl] at hops
          exact List.Chain.cons (Nat.zero_le a) hops
    obtain ⟨m, hm⟩ := logsOk_applyAll ops Registry.empty 0 hchain h0
    exact (hm p hp t ht).1

/-- Witness for C4: a concrete append step and a concrete sorted log. -/
theorem activity_log_append_only_witness :
    (∃ t' rest, (sampleRegistry.apply 7 (Op.comment 0 0 "hello")).findTask 0 0 = some t' ∧
      t'.log = sampleTask.log ++ rest) ∧
    List.Chain' (fun a b : LogEntry => a.timestamp ≤ b.timestamp) sampleReachedTask.log :=
  ⟨activity_log_append_only.1 sampleRegistry 7 (Op.comment 0 0 "hello") 0 0 sampleTask
      (by decide),
   activity_log_append_only.2 sampleOps
      (List.Chain.cons (by decide) (List.Chain.cons (by decide) List.Chain.nil))
      sampleReachedProject (by decide) sampleReachedTask (by decide)⟩

/-- Witness for C1: the state of a concretely reached task matches its log. -/
theorem state_matches_latest_log_entry_witness :
    sampleReachedTask.state = derivedState sampleReachedTask.log :=
  state_matches_latest_log_entry sampleOps sampleReachedProject sampleReachedTask
    (by decide) (by decide)

lemma updateTask_comp_proj (p : Project) (tid : Nat) (f g : Task → Task)
    (hg : ∀ u, (g u).id = u.id) :
    (p.updateTask tid g).updateTask tid f = p.updateTask tid (fun u => f (g u)) := by
  unfold Project.updateTask
  simp only [List.map_map]
  have hfun : ((fun t => if t.id = tid then f t else t) ∘ fun t => if t.id = tid then g t else t)
      = (fun t : Task => if t.id = tid then f (g t) else t) := by
    funext u
    by_cases hu : u.id = tid
    · simp [Function.comp, hu, hg u]
    · simp [Function.comp, hu]
  rw [hfun]

lemma updateTask_comp (r : Registry) (pid tid : Nat) (f g : Task → Task)
    (hg : ∀ u, (g u).id = u.id) :
    (r.updateTask pid tid g).updateTask pid tid f = r.updateTask pid tid (fun u => f (g u)) := by
  unfold Registry.updateTask Registry.updateProject
  simp only [List.map_map]
  have hfun : ((fun p => if p.id = pid then p.updateTask tid f else p) ∘
        fun p => if p.id = pid then p.updateTask tid g else p)
      = (fun p : Project => if p.id = pid then p.updateTask tid (fun u => f (g u)) else p) := by
    funext p
    by_cases hp : p.id = pid
    · have hid : (p.updateTask tid g).id = p.id := rfl
      simp only [Function.comp, hp, if_pos, hid]
      exact updateTask_comp_proj p tid f g hg
    · simp [Function.comp, hp]
  rw [hfun]

lemma addDependency_idem (t : Task) (d : Nat) :
    (t.addDependency d).addDependency d = t.addDependency d := by
  unfold Task.addDependency
  by_cases h : d ∈ t.dependencies
  · simp [h]
  · simp [h]

lemma mem_addDependency (t : Task) (d : Nat) : d ∈ (t.addDependency d).dependencies := by
  unfold Task.addDependency
  by_cases h : d ∈ t.dependencies <;> simp [h]

lemma depApply_preserves_id (a : DepAction) (d : Nat) :
    ∀ u : Task, (u.depApply a d).id = u.id := by
  intro u
  cases a with
  | Add =>
      simp only [Task.depApply, Task.addDependency]
      split <;> rfl
  | Remove => rfl

/-- C5: for every task and every dependency identifier `d` — with no
existence check, so `d` may name a non-existent task or the task itself —
adding `d` is idempotent, removing an absent `d` leaves the task (hence its
dependency set) unchanged, and after an add `d` is stored in the set. -/
theorem dependency_set_semantics (r : Registry) (ts ts' pid tid d : Nat) (t : Task)
    (h : r.findTask pid tid = some t) :
    ((r.apply ts (Op.dependency pid tid DepAction.Add d)).apply ts'
        (Op.dependency pid tid DepAction.Add d) =
      r.apply ts (Op.dependency pid tid DepAction.Add d)) ∧
    (d ∉ t.dependencies →
      (r.apply ts (Op.dependency pid tid DepAction.Remove d)).findTask pid tid = some t) ∧
    (∃ t', (r.apply ts (Op.dependency pid tid DepAction.Add d)).findTask pid tid = some t' ∧
      d ∈ t'.dependencies) := by
  refine ⟨?_, ?_, ?_⟩
  · simp only [Registry.apply, Task.depApply]
    rw [updateTask_comp r pid tid _ _ (fun u => by
      simp only [Task.addDependency]; split <;> rfl)]
    have hfun : (fun u : Task => (u.addDependency d).addDependency d)
        = (fun u : Task => u.addDependency d) := by
      funext u
      exact addDependency_idem u d
    rw [hfun]
  · intro hd
    simp only [Registry.apply]
    rw [findTask_updateTask_query r pid tid pid tid
      (fun u => u.depApply DepAction.Remove d) (depApply_preserves_id _ _)]
    simp only [and_self, if_pos, h, Option.map_some']
    have : t.depApply DepAction.Remove d = t := by
      simp only [Task.depApply, Task.removeDependency]
      have : t.dependencies.filter (fun x => x ≠ d) = t.dependencies := by
        apply List.filter_eq_self.mpr
        intro x hx
        simp only [ne_eq, decide_eq_true_eq]
        intro hxd
        exact hd (hxd ▸ hx)
      rw [this]
    rw [this]
  · simp only [Registry.apply]
    rw [findTask_updateTask_query r pid tid pid tid
      (fun u => u.depApply DepAction.Add d) (depApply_preserves_id _ _)]
    simp only [and_self, if_pos, h, Option.map_some']
    exact ⟨_, rfl, mem_addDependency t d⟩

/-- Witness for C5: a concrete task, with `d` a self-referencing identifier
that names no other task. -/
theorem dependency_set_semantics_witness :
    ((sampleRegistry.apply 4 (Op.dependency 0 0 DepAction.Add 0)).apply 5
        (Op.dependency 0 0 DepAction.Add 0) =
      sampleRegistry.apply 4 (Op.dependency 0 0 DepAction.Add 0)) ∧
    ((sampleRegistry.apply 4 (Op.dependency 0 0 DepAction.Remove 0)).findTask 0 0 =
      some sampleTask) ∧
    (∃ t', (sampleRegistry.apply 4 (Op.dependency 0 0 DepAction.Add 0)).findTask 0 0 =
      some t' ∧ (0 : Nat) ∈ t'.dependencies) := by
  have h := dependency_set_semantics sampleRegistry 4 5 0 0 0 sampleTask (by decide)
  exact ⟨h.1, h.2.1 (by decide), h.2.2⟩

/-- Modelled from the spec: the durable human-readable structured (JSON)
document tree the Persistence Codec writes and parses (§4.7, §6). -/
inductive Json where
  | num (n : Nat)
  | str (s : String)
  | arr (items : List Json)
  | obj (fields : List (String × Json))

/-- Modelled from the spec: serialization of a task state, using the
documented enum spellings (§4.2, §6). -/
def encodeState : TaskState → Json
  | .Todo => .str "Todo"
  | .InProgress => .str "InProgress"
  | .Blocked => .str "Blocked"
  | .Done => .str "Done"

/-- Modelled from the spec: parse of a task state. -/
def decodeState : Json → Option TaskState
  | .str "Todo" => some .Todo
  | .str "InProgress" => some .InProgress
  | .str "Blocked" => some .Blocked
  | .str "Done" => some .Done
  | _ => none

/-- Modelled from the spec: serialization of a log entry payload, matching
the documented `Comment` / `StateChangedTo` object shapes (§6). -/
def encodeEntryType : EntryType → Json
  | .Comment text => .obj [("Comment", .str text)]
  | .StateChangedTo s => .obj [("StateChangedTo", encodeState s)]

/-- Modelled from the spec: parse of a log entry payload. -/
def decodeEntryType : Json → Option EntryType
  | .obj [("Comment", .str text)] => some (.Comment text)
  | .obj [("StateChangedTo", j)] => (decodeState j).map EntryType.StateChangedTo
  | _ => none

/-- Modelled from the spec: serialization of one log entry (§6, `/task`). -/
def encodeLogEntry (e : LogEntry) : Json :=
  .obj [("timestamp", .num e.timestamp), ("entry_type", encodeEntryType e.entry_type)]

/-- Modelled from the spec: parse of one log entry. -/
def decodeLogEntry : Json → Option LogEntry
  | .obj [("timestamp", .num n), ("entry_type", j)] =>
      (decodeEntryType j).map (fun et => { timestamp := n, entry_type := et })
  | _ => none

/-- Parse every element of a serialized array, failing if any element
fails. -/
def decodeList {α : Type} (g : Json → Option α) : List Json → Option (List α)
  | [] => some []
  | j :: js =>
      match g j, decodeList g js with
      | some a, some rest => some (a :: rest)
      | _, _ => none

/-- Parse a serialized number. -/
def decodeNat : Json → Option Nat
  | .num n => some n
  | _ => none

/-- Modelled from the spec: serialization of one task with its log and
dependency set (§4.7, §6). -/
def encodeTask (t : Task) : Json :=
  .obj [("id", .num t.id), ("title", .str t.title), ("description", .str t.description),
        ("state", encodeState t.state),
        ("dependencies", .arr (t.dependencies.map Json.num)),
        ("log", .arr (t.log.map encodeLogEntry))]

/-- Modelled from the spec: parse of one task. -/
def decodeTask : Json → Option Task
  | .obj [("id", .num id), ("title", .str title), ("description", .str desc),
          ("state", sj), ("dependencies", .arr dj), ("log", .arr lj)] =>
      match decodeState sj, decodeList decodeNat dj, decodeList decodeLogEntry lj with
      | some st, some deps, some lg =>
          some { id := id, title := title, description := desc, state := st,
                 dependencies := deps, log := lg }
      | _, _, _ => none
  | _ => none

/-- Modelled from the spec: serialization of one project and its tasks,
with the per-project allocator state persisted alongside (§4.1, §4.7). -/
def encodeProject (p : Project) : Json :=
  .obj [("id", .num p.id), ("name", .str p.name), ("description", .str p.description),
        ("tasks", .arr (p.tasks.map encodeTask)),
        ("next_task_id", .num p.next_task_id)]

/-- Modelled from the spec: parse of one project. -/
def decodeProject : Json → Option Project
  | .obj [("id", .num id), ("name", .str name), ("description", .str desc),
          ("tasks", .arr tj), ("next_task_id", .num nt)] =>
      (decodeList decodeTask tj).map (fun ts =>
        { id := id, name := name, description := desc, tasks := ts, next_task_id := nt })
  | _ => none

/-- Modelled from the spec: serialization of the entire registry as one
structured document, with the global allocator state persisted alongside
(§4.1, §4.7, §6). -/
def encodeRegistry (r : Registry) : Json :=
  .obj [("projects", .arr (r.projects.map encodeProject)),
        ("next_project_id", .num r.next_project_id)]

/-- Modelled from the spec: parse of the registry document on load. -/
def decodeRegistry : Json → Option Registry
  | .obj [("projects", .arr pj), ("next_project_id", .num np)] =>
      (decodeList decodeProject pj).map (fun ps =>
        { projects := ps, next_project_id := np })
  | _ => none

lemma decodeState_encodeState (s : TaskState) : decodeState (encodeState s) = some s := by
  cases s <;> rfl

lemma decodeEntryType_encodeEntryType (e : EntryType) :
    decodeEntryType (encodeEntryType e) = some e := by
  cases e with
  | Comment text => rfl
  | StateChangedTo s => cases s <;> rfl

lemma decodeLogEntry_encodeLogEntry (e : LogEntry) :
    decodeLogEntry (encodeLogEntry e) = some e := by
  cases e with
  | mk ts et =>
      simp [encodeLogEntry, decodeLogEntry, decodeEntryType_encodeEntryType]

lemma decodeList_map {α : Type} (g : Json → Option α) (f : α → Json)
    (hgf : ∀ a, g (f a) = some a) (l : List α) : decodeList g (l.map f) = some l := by
  induction l with
  | nil => rfl
  | cons a rest ih => simp [decodeList, hgf, ih]

lemma decodeTask_encodeTask (t : Task) : decodeTask (encodeTask t) = some t := by
  cases t with
  | mk id title desc st deps lg =>
      simp [encodeTask, decodeTask, decodeState_encodeState,
        decodeList_map decodeNat Json.num (fun n => rfl),
        decodeList_map decodeLogEntry encodeLogEntry decodeLogEntry_encodeLogEntry]

lemma decodeProject_encodeProject (p : Project) :
    decodeProject (encodeProject p) = some p := by
  cases p with
  | mk id name desc tasks nt =>
      simp [encodeProject, decodeProject,
        decodeList_map decodeTask encodeTask decodeTask_encodeTask]

lemma decode_encode (r : Registry) : decodeRegistry (encodeRegistry r) = some r := by
  cases r with
  | mk projects np =>
      simp [encodeRegistry, decodeRegistry,
        decodeList_map decodeProject encodeProject decodeProject_encodeProject]

/-- C2: decoding the Persistence Codec's encoding of a registry yields a
registry equal to it, for every registry — in particular for every
reachable one, including states with empty logs, multi-entry logs, and
empty dependency sets. -/
theorem persistence_roundtrip (r : Registry) :
    decodeRegistry (encodeRegistry r) = some r :=
  decode_encode r

/-- Identifier well-formedness of a project: task identifiers are unique
and below the per-project allocator counter (§3 invariants, §4.1). -/
def Project.Wf (p : Project) : Prop :=
  (p.tasks.map Task.id).Nodup ∧ ∀ t ∈ p.tasks, t.id < p.next_task_id

/-- Identifier well-formedness of the registry: project identifiers are
unique and below the global allocator counter, and each project is
well-formed. -/
def Registry.Wf (r : Registry) : Prop :=
  (r.projects.map Project.id).Nodup ∧
  ∀ p ∈ r.projects, p.id < r.next_project_id ∧ p.Wf

lemma wf_empty : Registry.empty.Wf := by
  constructor
  · simp [Registry.empty]
  · intro p hp
    simp [Registry.empty] at hp

lemma map_id_updateProject (r : Registry) (pid : Nat) (f : Project → Project)
    (hf : ∀ p, (f p).id = p.id) :
    (r.updateProject pid f).projects.map Project.id = r.projects.map Project.id := by
  simp only [Registry.updateProject, List.map_map]
  have hfun : (Project.id ∘ fun p => if p.id = pid then f p else p) = Project.id := by
    funext p
    by_cases h : p.id = pid <;> simp [Function.comp, h, hf]
  rw [hfun]

lemma wf_updateProject (r : Registry) (pid : Nat) (f : Project → Project)
    (hf_id : ∀ p, (f p).id = p.id) (hf_wf : ∀ p, p.Wf → (f p).Wf)
    (h : r.Wf) : (r.updateProject pid f).Wf := by
  constructor
  · rw [map_id_updateProject r pid f hf_id]
    exact h.1
  · intro p hp
    simp only [Registry.updateProject, List.mem_map] at hp
    obtain ⟨q, hq, rfl⟩ := hp
    by_cases hid : q.id = pid
    · rw [if_pos hid]
      refine ⟨?_, hf_wf q (h.2 q hq).2⟩
      show (f q).id < r.next_project_id
      rw [hf_id q]
      exact (h.2 q hq).1
    · rw [if_neg hid]
      exact h.2 q hq

lemma wf_updateTask_proj (p : Project) (tid : Nat) (f : Task → Task)
    (hf : ∀ u, (f u).id = u.id) (h : p.Wf) : (p.updateTask tid f).Wf := by
  constructor
  · simp only [Project.updateTask, List.map_map]
    have hfun : (Task.id ∘ fun t => if t.id = tid then f t else t) = Task.id := by
      funext u
      by_cases hu : u.id = tid <;> simp [Function.comp, hu, hf]
    rw [hfun]
    exact h.1
  · intro t ht
    simp only [Project.updateTask, List.mem_map] at ht
    obtain ⟨u, hu, rfl⟩ := ht
    by_cases hid : u.id = tid
    · rw [if_pos hid]
      show (f u).id < p.next_task_id
      rw [hf u]
      exact h.2 u hu
    · rw [if_neg hid]
      exact h.2 u hu

lemma wf_createTask (p : Project) (n d : String) (h : p.Wf) : (p.createTask n d).1.Wf := by
  constructor
  · simp only [Project.createTask, List.map_append, List.map_cons, List.map_nil]
    rw [List.nodup_append]
    refine ⟨h.1, List.nodup_singleton _, ?_⟩
    intro a ha hb
    simp only [List.mem_singleton] at hb
    subst hb
    obtain ⟨t, ht, hta⟩ := List.mem_map.mp ha
    exact absurd (hta ▸ h.2 t ht) (lt_irrefl _)
  · intro t ht
    simp only [Project.createTask, List.mem_append, List.mem_singleton] at ht
    rcases ht with ht | ht
    · exact lt_trans (h.2 t ht) (Nat.lt_succ_self _)
    · subst ht
      exact Nat.lt_succ_self _

lemma wf_createProject (r : Registry) (n d : String) (h : r.Wf) :
    (r.createProject n d).1.Wf := by
  constructor
  · simp only [Registry.createProject, List.map_append, List.map_cons, List.map_nil]
    rw [List.nodup_append]
    refine ⟨h.1, List.nodup_singleton _, ?_⟩
    intro a ha hb
    simp only [List.mem_singleton] at hb
    subst hb
    obtain ⟨p, hp, hpa⟩ := List.mem_map.mp ha
    exact absurd (hpa ▸ (h.2 p hp).1) (lt_irrefl _)
  · intro p hp
    simp only [Registry.createProject, List.mem_append, List.mem_singleton] at hp
    rcases hp with hp | hp
    · exact ⟨lt_trans (h.2 p hp).1 (Nat.lt_succ_self _), (h.2 p hp).2⟩
    · subst hp
      exact ⟨Nat.lt_succ_self _, by constructor <;> simp⟩

lemma wf_apply (r : Registry) (ts : Nat) (op : Op) (h : r.Wf) : (r.apply ts op).Wf := by
  cases op with
  | createProject n d => exact wf_createProject r n d h
  | renameProject pid name =>
      exact wf_updateProject r pid (fun p => { p with name := name })
        (fun p => rfl) (fun p hw => hw) h
  | describeProject pid desc =>
      exact wf_updateProject r pid (fun p => { p with description := desc })
        (fun p => rfl) (fun p hw => hw) h
  | createTask pid n d =>
      exact wf_updateProject r pid (fun p => (p.createTask n d).1)
        (fun p => rfl) (fun p hw => wf_createTask p n d hw) h
  | setTaskTitle pid tid title =>
      exact wf_updateProject r pid
        (fun p => p.updateTask tid (fun u => { u with title := title })) (fun p => rfl)
        (fun p hw => wf_updateTask_proj p tid _ (fun u => rfl) hw) h
  | setTaskDescription pid tid desc =>
      exact wf_updateProject r pid
        (fun p => p.updateTask tid (fun u => { u with description := desc })) (fun p => rfl)
        (fun p hw => wf_updateTask_proj p tid _ (fun u => rfl) hw) h
  | dependency pid tid a d =>
      exact wf_updateProject r pid
        (fun p => p.updateTask tid (fun u => u.depApply a d)) (fun p => rfl)
        (fun p hw => wf_updateTask_proj p tid _ (depApply_preserves_id a d) hw) h
  | changeState pid tid s =>
      exact wf_updateProject r pid
        (fun p => p.updateTask tid (fun u => u.changeState ts s)) (fun p => rfl)
        (fun p hw => wf_updateTask_proj p tid _ (fun u => rfl) hw) h
  | comment pid tid text =>
      exact wf_updateProject r pid
        (fun p => p.updateTask tid (fun u => u.addComment ts text)) (fun p => rfl)
        (fun p hw => wf_updateTask_proj p tid _ (fun u => rfl) hw) h

lemma wf_applyAll (ops : List (Nat × Op)) (r : Registry) (h : r.Wf) :
    (Registry.applyAll ops r).Wf := by
  induction ops generalizing r with
  | nil => simpa [Registry.applyAll] using h
  | cons step rest ih =>
      simpa [Registry.applyAll] using ih (r.apply step.1 step.2) (wf_apply r step.1 step.2 h)

lemma wf_reach (ops : List (Nat × Op)) : (Registry.reach ops).Wf :=
  wf_applyAll ops Registry.empty wf_empty

/-- C3: in every reachable registry, project identifiers are unique, task
identifiers are unique within each project, the allocator's next project
identifier was never returned before and exceeds all existing ones
(monotonically increasing; returned values are `Nat`, hence non-negative),
the same holds per project for task identifiers, and reloading from
persistence reproduces the registry (allocator state included), so the
guarantees survive a process restart. -/
theorem identifier_allocation (ops : List (Nat × Op)) :
    ((Registry.reach ops).projects.map Project.id).Nodup ∧
    (∀ p ∈ (Registry.reach ops).projects, (p.tasks.map Task.id).Nodup) ∧
    (∀ name desc,
      ((Registry.reach ops).createProject name desc).2 ∉
        (Registry.reach ops).projects.map Project.id ∧
      ∀ i ∈ (Registry.reach ops).projects.map Project.id,
        i < ((Registry.reach ops).createProject name desc).2) ∧
    (∀ p ∈ (Registry.reach ops).projects, ∀ name desc,
      (p.createTask name desc).2 ∉ p.tasks.map Task.id ∧
      ∀ i ∈ p.tasks.map Task.id, i < (p.createTask name desc).2) ∧
    decodeRegistry (encodeRegistry (Registry.reach ops)) = some (Registry.reach ops) := by
  have hwf := wf_reach ops
  refine ⟨hwf.1, ?_, ?_, ?_, decode_encode _⟩
  · intro p hp
    exact (hwf.2 p hp).2.1
  · intro name desc
    constructor
    · intro hmem
      obtain ⟨p, hp, hpa⟩ := List.mem_map.mp hmem
      exact absurd (hpa ▸ (hwf.2 p hp).1) (lt_irrefl _)
    · intro i hi
      obtain ⟨p, hp, hpa⟩ := List.mem_map.mp hi
      exact hpa ▸ (hwf.2 p hp).1
  · intro p hp name desc
    constructor
    · intro hmem
      obtain ⟨t, ht, hta⟩ := List.mem_map.mp hmem
      exact absurd (hta ▸ (hwf.2 p hp).2.2 t ht) (lt_irrefl _)
    · intro i hi
      obtain ⟨t, ht, hta⟩ := List.mem_map.mp hi
      exact hta ▸ (hwf.2 p hp).2.2 t ht

/-- Witness for C3: concrete fresh identifiers after a concrete run. -/
theorem identifier_allocation_witness :
    (((Registry.reach sampleOps).createProject "Q" "e").2 ∉
       (Registry.reach sampleOps).projects.map Project.id) ∧
    ((sampleReachedProject.createTask "U" "y").2 ∉
       sampleReachedProject.tasks.map Task.id) := by
  have h := identifier_allocation sampleOps
  exact ⟨(h.2.2.1 "Q" "e").1, (h.2.2.2.1 sampleReachedProject (by decide) "U" "y").1⟩

/-- Look up a field of a structured object body by key. -/
def lookupField : List (String × Json) → String → Option Json
  | [], _ => none
  | (k, v) :: rest, key => if k = key then some v else lookupField rest key

/-- Field access on a structured body; non-objects have no fields. -/
def Json.getField : Json → String → Option Json
  | .obj fs, key => lookupField fs key
  | _, _ => none

/-- A numeric field of a request body, if present and well-typed. -/
def Json.getNat (j : Json) (key : String) : Option Nat :=
  (j.getField key).bind decodeNat

/-- A string field of a request body, if present and well-typed. -/
def Json.getStr (j : Json) (key : String) : Option String :=
  (j.getField key).bind (fun v =>
    match v with
    | .str s => some s
    | _ => none)

/-- Modelled from the spec: parse of the dependency action enum (§4.3,
§6). -/
def decodeAction : Json → Option DepAction
  | .str "Add" => some DepAction.Add
  | .str "Remove" => some DepAction.Remove
  | _ => none

/-- Modelled from the spec: the documented operation paths (§6). -/
inductive RoutePath where
  | listProjects
  | projectDetails
  | projectCreate
  | projectName
  | projectDescription
  | taskDetails
  | taskCreate
  | taskTitle
  | taskDescription
  | taskDependency
  | taskState
  | taskComment
deriving DecidableEq

/-- Modelled from the spec: the generic success envelope (§6, §7). -/
def okEnvelope : Json :=
  .obj [("status", .num 200), ("description", .str "OK")]

/-- Modelled from the spec: the list-projects summary entry (§4.5, §6). -/
def projectSummary (p : Project) : Json :=
  .obj [("id", .num p.id), ("name", .str p.name)]

/-- Modelled from the spec: the task summary inside project details (§4.5,
§6). -/
def taskSummary (t : Task) : Json :=
  .obj [("title", .str t.title), ("state", encodeState t.state), ("id", .num t.id)]

/-- Modelled from the spec: the project-details response (§6). -/
def projectDetailsJson (p : Project) : Json :=
  .obj [("name", .str p.name), ("id", .num p.id), ("description", .str p.description),
        ("tasks", .arr (p.tasks.map taskSummary))]

/-- Modelled from the spec: the task-details response (§6). -/
def taskDetailsJson (t : Task) : Json :=
  .obj [("title", .str t.title), ("id", .num t.id), ("description", .str t.description),
        ("state", encodeState t.state),
        ("log", .arr (t.log.map encodeLogEntry)),
        ("dependencies", .arr (t.dependencies.map Json.num))]

/-- Modelled from the spec: the Request Router over the Store Manager
(§4.8): each operation parses its required fields from the body, degrades
to a no-op or to default data on anomalous input, and emits the generic
success envelope for every mutation and every absorbed error (§6, §7,
§9). -/
def handle (now : Nat) (r : Registry) : RoutePath → Json → Registry × Json
  | .listProjects, _ =>
      (r, .obj [("projects", .arr (r.projects.map projectSummary))])
  | .projectDetails, body =>
      match body.getNat "project_id" with
      | some pid =>
          match r.findProject pid with
          | some p => (r, projectDetailsJson p)
          | none => (r, okEnvelope)
      | none => (r, okEnvelope)
  | .projectCreate, body =>
      match body.getStr "name", body.getStr "description" with
      | some name, some desc =>
          ((r.createProject name desc).1,
           .obj [("project_id", .num (r.createProject name desc).2)])
      | _, _ => (r, okEnvelope)
  | .projectName, body =>
      match body.getNat "project_id", body.getStr "name" with
      | some pid, some name => (r.apply now (.renameProject pid name), okEnvelope)
      | _, _ => (r, okEnvelope)
  | .projectDescription, body =>
      match body.getNat "project_id", body.getStr "description" with
      | some pid, some desc => (r.apply now (.describeProject pid desc), okEnvelope)
      | _, _ => (r, okEnvelope)
  | .taskDetails, body =>
      match body.getNat "project_id", body.getNat "task_id" with
      | some pid, some tid =>
          match r.findTask pid tid with
          | some t => (r, taskDetailsJson t)
          | none => (r, okEnvelope)
      | _, _ => (r, okEnvelope)
  | .taskCreate, body =>
      match body.getNat "project_id", body.getStr "name", body.getStr "description" with
      | some pid, some name, some desc =>
          match r.findProject pid with
          | some p =>
              (r.apply now (.createTask pid name desc), .obj [("task_id", .num p.next_task_id)])
          | none => (r, okEnvelope)
      | _, _, _ => (r, okEnvelope)
  | .taskTitle, body =>
      match body.getNat "project_id", body.getNat "task_id", body.getStr "title" with
      | some pid, some tid, some title =>
          (r.apply now (.setTaskTitle pid tid title), okEnvelope)
      | _, _, _ => (r, okEnvelope)
  | .taskDescription, body =>
      match body.getNat "project_id", body.getNat "task_id", body.getStr "description" with
      | some pid, some tid, some desc =>
          (r.apply now (.setTaskDescription pid tid desc), okEnvelope)
      | _, _, _ => (r, okEnvelope)
  | .taskDependency, body =>
      match body.getNat "project_id", body.getNat "task_id",
        (Json.getField body "action").bind decodeAction, body.getNat "dependency" with
      | some pid, some tid, some a, some d =>
          (r.apply now (.dependency pid tid a d), okEnvelope)
      | _, _, _, _ => (r, okEnvelope)
  | .taskState, body =>
      match body.getNat "project_id", body.getNat "task_id",
        (Json.getField body "new_state").bind decodeState with
      | some pid, some tid, some s => (r.apply now (.changeState pid tid s), okEnvelope)
      | _, _, _ => (r, okEnvelope)
  | .taskComment, body =>
      match body.getNat "project_id", body.getNat "task_id", body.getStr "comment" with
      | some pid, some tid, some c => (r.apply now (.comment pid tid c), okEnvelope)
      | _, _, _ => (r, okEnvelope)

/-- Modelled from the spec: the anomalous-input conditions of §7 — a
reference to a nonexistent project or task, a malformed body (missing or
ill-typed required field) or an invalid enum value. -/
def isBadRequest (r : Registry) : RoutePath → Json → Bool
  | .listProjects, _ => false
  | .projectDetails, body =>
      match body.getNat "project_id" with
      | some pid => (r.findProject pid).isNone
      | none => true
  | .projectCreate, body =>
      (body.getStr "name").isNone || (body.getStr "description").isNone
  | .projectName, body =>
      match body.getNat "project_id", body.getStr "name" with
      | some pid, some _ => (r.findProject pid).isNone
      | _, _ => true
  | .projectDescription, body =>
      match body.getNat "project_id", body.getStr "description" with
      | some pid, some _ => (r.findProject pid).isNone
      | _, _ => true
  | .taskDetails, body =>
      match body.getNat "project_id", body.getNat "task_id" with
      | some pid, some tid => (r.findTask pid tid).isNone
      | _, _ => true
  | .taskCreate, body =>
      match body.getNat "project_id", body.getStr "name", body.getStr "description" with
      | some pid, some _, some _ => (r.findProject pid).isNone
      | _, _, _ => true
  | .taskTitle, body =>
      match body.getNat "project_id", body.getNat "task_id", body.getStr "title" with
      | some pid, some tid, some _ => (r.findTask pid tid).isNone
      | _, _, _ => true
  | .taskDescription, body =>
      match body.getNat "project_id", body.getNat "task_id", body.getStr "description" with
      | some pid, some tid, some _ => (r.findTask pid tid).isNone
      | _, _, _ => true
  | .taskDependency, body =>
      match body.getNat "project_id", body.getNat "task_id",
        (Json.getField body "action").bind decodeAction, body.getNat "dependency" with
      | some pid, some tid, some _, some _ => (r.findTask pid tid).isNone
      | _, _, _, _ => true
  | .taskState, body =>
      match body.getNat "project_id", body.getNat "task_id",
        (Json.getField body "new_state").bind decodeState with
      | some pid, some tid, some _ => (r.findTask pid tid).isNone
      | _, _, _ => true
  | .taskComment, body =>
      match body.getNat "project_id", body.getNat "task_id", body.getStr "comment" with
      | some pid, some tid, some _ => (r.findTask pid tid).isNone
      | _, _, _ => true

lemma updateProject_not_found (r : Registry) (pid : Nat) (f : Project → Project)
    (h : r.findProject pid = none) : r.updateProject pid f = r := by
  have h' := List.find?_eq_none.mp h
  unfold Registry.updateProject
  have hmap : r.projects.map (fun p => if p.id = pid then f p else p) = r.projects := by
    conv_rhs => rw [← List.map_id r.projects]
    apply List.map_congr_left
    intro p hp
    have : ¬ p.id = pid := by simpa using h' p hp
    simp [this]
  rw [hmap]

lemma updateTask_not_found (r : Registry) (pid tid : Nat) (f : Task → Task)
    (hwf : r.Wf) (h : r.findTask pid tid = none) : r.updateTask pid tid f = r := by
  unfold Registry.findTask at h
  cases hfp : r.findProject pid with
  | none =>
      exact updateProject_not_found r pid _ hfp
  | some p0 =>
      rw [hfp] at h
      simp only [Option.some_bind] at h
      have htasks : ∀ t ∈ p0.tasks, ¬ t.id = tid := by
        intro t ht
        have := List.find?_eq_none.mp h t ht
        simpa using this
      have hp0mem : p0 ∈ r.projects := List.mem_of_find?_eq_some hfp
      have hp0id : p0.id = pid := by
        have := List.find?_some hfp
        simpa using this
      unfold Registry.updateTask Registry.updateProject
      have hmap : r.projects.map (fun p => if p.id = pid then p.updateTask tid f else p)
          = r.projects := by
        conv_rhs => rw [← List.map_id r.projects]
        apply List.map_congr_left
        intro q hq
        by_cases hqid : q.id = pid
        · have hq_eq : q = p0 :=
            List.inj_on_of_nodup_map hwf.1 hq hp0mem (by rw [hqid, hp0id])
          subst hq_eq
          simp only [hqid, if_pos, id]
          unfold Project.updateTask
          have : q.tasks.map (fun t => if t.id = tid then f t else t) = q.tasks := by
            conv_rhs => rw [← List.map_id q.tasks]
            apply List.map_congr_left
            intro t ht
            simp [htasks t ht]
          rw [this]
        · simp [hqid]
      rw [hmap]

/-- C7: for every request that references a non-existent project or task,
or carries a malformed body or an invalid enum value, the operation
degrades to a no-op on the (well-formed) registry and the reply is the
generic success envelope, never a distinguishable error response or a
thrown failure. -/
theorem error_absorption (now : Nat) (r : Registry) (path : RoutePath) (body : Json)
    (hwf : r.Wf) (hbad : isBadRequest r path body = true) :
    handle now r path body = (r, okEnvelope) := by
  cases path with
  | listProjects => simp [isBadRequest] at hbad
  | projectDetails =>
      cases hpid : body.getNat "project_id" with
      | none => simp [handle, hpid]
      | some pid =>
          simp only [isBadRequest, hpid] at hbad
          have hnone : r.findProject pid = none := Option.isNone_iff_eq_none.mp hbad
          simp [handle, hpid, hnone]
  | projectCreate =>
      cases hname : body.getStr "name" with
      | none => simp [handle, hname]
      | some name =>
          cases hdesc : body.getStr "description" with
          | none => simp [handle, hname, hdesc]
          | some desc => simp [isBadRequest, hname, hdesc] at hbad
  | projectName =>
      cases hpid : body.getNat "project_id" with
      | none => simp [handle, hpid]
      | some pid =>
          cases hname : body.getStr "name" with
          | none => simp [handle, hpid, hname]
          | some name =>
              simp only [isBadRequest, hpid, hname] at hbad
              have hnone : r.findProject pid = none := Option.isNone_iff_eq_none.mp hbad
              simp only [handle, hpid, hname, Registry.apply]
              rw [updateProject_not_found r pid _ hnone]
  | projectDescription =>
      cases hpid : body.getNat "project_id" with
      | none => simp [handle, hpid]
      | some pid =>
          cases hdesc : body.getStr "description" with
          | none => simp [handle, hpid, hdesc]
          | some desc =>
              simp only [isBadRequest, hpid, hdesc] at hbad
              have hnone : r.findProject pid = none := Option.isNone_iff_eq_none.mp hbad
              simp only [handle, hpid, hdesc, Registry.apply]
              rw [updateProject_not_found r pid _ hnone]
  | taskDetails =>
      cases hpid : body.getNat "project_id" with
      | none => simp [handle, hpid]
      | some pid =>
          cases htid : body.getNat "task_id" with
          | none => simp [handle, hpid, htid]
          | some tid =>
              simp only [isBadRequest, hpid, htid] at hbad
              have hnone : r.findTask pid tid = none := Option.isNone_iff_eq_none.mp hbad
              simp [handle, hpid, htid, hnone]
  | taskCreate =>
      cases hpid : body.getNat "project_id" with
      | none => simp [handle, hpid]
      | some pid =>
          cases hname : body.getStr "name" with
          | none => simp [handle, hpid, hname]
          | some name =>
              cases hdesc : body.getStr "description" with
              | none => simp [handle, hpid, hname, hdesc]
              | some desc =>
                  simp only [isBadRequest, hpid, hname, hdesc] at hbad
                  have hnone : r.findProject pid = none := Option.isNone_iff_eq_none.mp hbad
                  simp [handle, hpid, hname, hdesc, hnone]
  | taskTitle =>
      cases hpid : body.getNat "project_id" with
      | none => simp [handle, hpid]
      | some pid =>
          cases htid : body.getNat "task_id" with
          | none => simp [handle, hpid, htid]
          | some tid =>
              cases htitle : body.getStr "title" with
              | none => simp [handle, hpid, htid, htitle]
              | some title =>
                  simp only [isBadRequest, hpid, htid, htitle] at hbad
                  have hnone : r.findTask pid tid = none := Option.isNone_iff_eq_none.mp hbad
                  simp only [handle, hpid, htid, htitle, Registry.apply]
                  rw [updateTask_not_found r pid tid _ hwf hnone]
  | taskDescription =>
      cases hpid : body.getNat "project_id" with
      | none => simp [handle, hpid]
      | some pid =>
          cases htid : body.getNat "task_id" with
          | none => simp [handle, hpid, htid]
          | some tid =>
              cases hdesc : body.getStr "description" with
              | none => simp [handle, hpid, htid, hdesc]
              | some desc =>
                  simp only [isBadRequest, hpid, htid, hdesc] at hbad
                  have hnone : r.findTask pid tid = none := Option.isNone_iff_eq_none.mp hbad
                  simp only [handle, hpid, htid, hdesc, Registry.apply]
                  rw [updateTask_not_found r pid tid _ hwf hnone]
  | taskDependency =>
      cases hpid : body.getNat "project_id" with
      | none => simp [handle, hpid]
      | some pid =>
          cases htid : body.getNat "task_id" with
          | none => simp [handle, hpid, htid]
          | some tid =>
              cases hact : (Json.getField body "action").bind decodeAction with
              | none => simp [handle, hpid, htid, hact]
              | some a =>
                  cases hdep : body.getNat "dependency" with
                  | none => simp [handle, hpid, htid, hact, hdep]
                  | some d =>
                      simp only [isBadRequest, hpid, htid, hact, hdep] at hbad
                      have hnone : r.findTask pid tid = none :=
                        Option.isNone_iff_eq_none.mp hbad
                      simp only [handle, hpid, htid, hact, hdep, Registry.apply]
                      rw [updateTask_not_found r pid tid _ hwf hnone]
  | taskState =>
      cases hpid : body.getNat "project_id" with
      | none => simp [handle, hpid]
      | some pid =>
          cases htid : body.getNat "task_id" with
          | none => simp [handle, hpid, htid]
          | some tid =>
              cases hst : (Json.getField body "new_state").bind decodeState with
              | none => simp [handle, hpid, htid, hst]
              | some s =>
                  simp only [isBadRequest, hpid, htid, hst] at hbad
                  have hnone : r.findTask pid tid = none := Option.isNone_iff_eq_none.mp hbad
                  simp only [handle, hpid, htid, hst, Registry.apply]
                  rw [updateTask_not_found r pid tid _ hwf hnone]
  | taskComment =>
      cases hpid : body.getNat "project_id" with
      | none => simp [handle, hpid]
      | some pid =>
          cases htid : body.getNat "task_id" with
          | none => simp [handle, hpid, htid]
          | some tid =>
              cases hc : body.getStr "comment" with
              | none => simp [handle, hpid, htid, hc]
              | some c =>
                  simp only [isBadRequest, hpid, htid, hc] at hbad
                  have hnone : r.findTask pid tid = none := Option.isNone_iff_eq_none.mp hbad
                  simp only [handle, hpid, htid, hc, Registry.apply]
                  rw [updateTask_not_found r pid tid _ hwf hnone]

/-- Witness for C7: a state-change request naming a project that does not
exist in a concrete well-formed registry. -/
theorem error_absorption_witness :
    handle 9 sampleRegistry RoutePath.taskState
      (Json.obj [("project_id", Json.num 5), ("task_id", Json.num 0),
                 ("new_state", Json.str "Done")]) = (sampleRegistry, okEnvelope) :=
  error_absorption 9 sampleRegistry RoutePath.taskState
    (Json.obj [("project_id", Json.num 5), ("task_id", Json.num 0),
               ("new_state", Json.str "Done")])
    (by unfold Registry.Wf Project.Wf; decide) (by rfl)

/-- The `XMLHttpRequest.DONE` ready-state constant used by src/main.js. -/
def xhrDone : Nat := 4

/-- The observable fields of an XMLHttpRequest when its
readystatechange handler runs. -/
structure XhrState where
  readyState : Nat
  status : Nat
  responseText : String
deriving DecidableEq

/-- Embedded from src/main.js: the onreadystatechange handler installed by
send_request. It runs the callback on the JSON-parsed response text exactly
when the ready state is DONE and the HTTP status is 200. The returned value
is the response text handed to JSON.parse and then to the callback; `none`
means the callback is never invoked. -/
def sendRequestHandler (st : XhrState) : Option String :=
  if st.readyState = xhrDone ∧ st.status = 200 then some st.responseText else none

/-- C9: for every response received by send_request (ready state DONE), the
supplied callback is invoked with the parsed response body iff the HTTP
status is exactly 200; a response with any other status is silently
discarded and the callback is never called. -/
theorem callback_iff_status_200 (st : XhrState) (h : st.readyState = xhrDone) :
    (st.status = 200 → sendRequestHandler st = some st.responseText) ∧
    (st.status ≠ 200 → sendRequestHandler st = none) := by
  constructor
  · intro h200
    simp [sendRequestHandler, h, h200]
  · intro hne
    simp [sendRequestHandler, h, hne]

/-- Witness for C9: a 200 response invokes the callback, a 404 response is
discarded. -/
theorem callback_iff_status_200_witness :
    (sendRequestHandler { readyState := 4, status := 200, responseText := "null" } =
      some "null") ∧
    (sendRequestHandler { readyState := 4, status := 404, responseText := "null" } = none) :=
  ⟨(callback_iff_status_200 { readyState := 4, status := 200, responseText := "null" }
      rfl).1 rfl,
   (callback_iff_status_200 { readyState := 4, status := 404, responseText := "null" }
      rfl).2 (by decide)⟩

mutual

/-- The JSON.stringify builtin applied by src/main.js to the request data:
serialize a JSON value to text. -/
def Json.stringify : Json → String
  | .num n => toString n
  | .str s => "\"" ++ s ++ "\""
  | .arr items => "[" ++ stringifyArray items ++ "]"
  | .obj fields => "\x7b" ++ stringifyFields fields ++ "\x7d"

/-- Comma-joined serialization of a JSON array's elements. -/
def stringifyArray : List Json → String
  | [] => ""
  | [j] => Json.stringify j
  | j :: rest => Json.stringify j ++ "," ++ stringifyArray rest

/-- Comma-joined serialization of a JSON object's fields. -/
def stringifyFields : List (String × Json) → String
  | [] => ""
  | [(k, v)] => "\"" ++ k ++ "\":" ++ Json.stringify v
  | (k, v) :: rest => "\"" ++ k ++ "\":" ++ Json.stringify v ++ "," ++ stringifyFields rest

end

/-- The HTTP request assembled and dispatched by the client helper. -/
structure HttpRequest where
  url : String
  method : String
  body : Option String
deriving DecidableEq

/-- Embedded from src/main.js: the JavaScript truthiness test `if (data)`
applied to a data value. The number 0 and the empty string are falsy;
arrays and objects are always truthy (a null data argument is the `none`
case of the caller). -/
def Json.truthy : Json → Bool
  | .num n => n != 0
  | .str s => s != ""
  | .arr _ => true
  | .obj _ => true

/-- Embedded from src/main.js: send_request builds the URL from the fixed
host and the path, opens with the given method, and then tests `if (data)`
— JavaScript truthiness — sending `JSON.stringify(data)` as the request
body when data is truthy and calling send() with no body otherwise; the
method is not consulted when choosing the body. -/
def send_request (path : String) (data : Option Json) (method : String) : HttpRequest :=
  { url := "http://localhost:12345" ++ path,
    method := method,
    body := match data with
            | some d => if d.truthy then some (Json.stringify d) else none
            | none => none }

/-- Embedded from src/main.js: get_request delegates to send_request with
method GET. -/
def get_request (path : String) (data : Option Json) : HttpRequest :=
  send_request path data "GET"

/-- Embedded from src/main.js: post_request delegates to send_request with
method POST. -/
def post_request (path : String) (data : Option Json) : HttpRequest :=
  send_request path data "POST"

/-- Embedded from src/main.js: list_projects issues a GET for the root path
with null data. -/
def list_projects_request : HttpRequest :=
  get_request "/" none

/-- Counterexample to C10 as stated: the non-null data value 0 is falsy in
JavaScript, so `if (data)` takes the else branch and send_request sends no
body — not the stringified data the claim asserts for every non-null
argument. -/
theorem request_body_nonnull_counterexample :
    (send_request "/task" (some (Json.num 0)) "GET").body = none ∧
    (send_request "/task" (some (Json.num 0)) "GET").body ≠
      some (Json.stringify (Json.num 0)) := by
  constructor
  · rfl
  · show (none : Option String) ≠ some (Json.stringify (Json.num 0))
    exact fun h => Option.noConfusion h

/-- C10 (amended): send_request serializes the data argument with
JSON.stringify and sends it as the request body regardless of the HTTP
method exactly when the data is non-null and truthy — so get_request
issues GET requests carrying a JSON body for truthy data — while a null
data argument (as in list_projects) or a falsy non-null one (the number 0
or the empty string) produces a body-less request. -/
theorem request_body_from_truthy_data :
    (∀ (path : String) (d : Json) (method : String), d.truthy = true →
      (send_request path (some d) method).body = some (Json.stringify d)) ∧
    (∀ (path : String) (d : Json) (method : String), d.truthy = false →
      (send_request path (some d) method).body = none) ∧
    (∀ (path : String) (d : Json) (m m' : String),
      (send_request path (some d) m).body = (send_request path (some d) m').body) ∧
    (∀ (path : String) (d : Json),
      (get_request path (some d)).method = "GET" ∧
      (d.truthy = true →
        (get_request path (some d)).body = some (Json.stringify d))) ∧
    (∀ (path method : String), (send_request path none method).body = none) ∧
    (list_projects_request.method = "GET" ∧ list_projects_request.body = none) := by
  refine ⟨?_, ?_, fun path d m m' => rfl, ?_, fun path method => rfl, rfl, rfl⟩
  · intro path d method h
    simp [send_request, h]
  · intro path d method h
    simp [send_request, h]
  · intro path d
    refine ⟨rfl, ?_⟩
    intro h
    simp [get_request, send_request, h]

/-- Witness for amended C10: a truthy object body is stringified even on a
GET, while the falsy number 0 sends no body. -/
theorem request_body_from_truthy_data_witness :
    ((send_request "/project" (some (Json.obj [("project_id", Json.num 0)])) "GET").body =
      some (Json.stringify (Json.obj [("project_id", Json.num 0)]))) ∧
    ((send_request "/task" (some (Json.num 0)) "POST").body = none) ∧
    (list_projects_request.body = none) :=
  ⟨request_body_from_truthy_data.1 "/project"
      (Json.obj [("project_id", Json.num 0)]) "GET" rfl,
   request_body_from_truthy_data.2.1 "/task" (Json.num 0) "POST" rfl,
   request_body_from_truthy_data.2.2.2.2.2.2⟩

end BTasks
